import Mathlib

/-!
A Lean model of `src/log_scanner.py` from the pyrewall repository, and
theorems checking its specification against the code.

The Python program is a batch log scanner: it parses a firewall log with a
regular expression, groups event timestamps by source address, slides a
window over each sorted timeline looking for at least `K` hits within `W`
seconds, and feeds offending addresses to `ipset`.

Modelling conventions:
* Python `datetime` values are modelled as natural numbers of seconds from
  the start of the reference year (the year anchoring of the script).
* Character classes (`\w`, `\d`, `\s`, …) are modelled over ASCII, which
  covers the log lines the script is designed for.
* The external `ipset` call is modelled as a value describing the command
  that would be spawned and the report that is printed.
-/

namespace Pyrewall

/-! ## ASCII character model -/

/-- ASCII decimal digit, the model of the regex class `\d` and of the digit
checks done by Python's `int` on ASCII input. -/
def isDigitChar (c : Char) : Bool := 48 ≤ c.toNat && c.toNat ≤ 57

/-- Whitespace as in the regex class `\s` and Python's `str.strip`,
restricted to ASCII: space, tab, newline, carriage return, vertical tab and
form feed. -/
def isSpaceChar (c : Char) : Bool :=
  c.toNat = 32 || c.toNat = 9 || c.toNat = 10 || c.toNat = 13 ||
  c.toNat = 11 || c.toNat = 12

/-- ASCII letter. -/
def isAlphaChar (c : Char) : Bool :=
  (65 ≤ c.toNat && c.toNat ≤ 90) || (97 ≤ c.toNat && c.toNat ≤ 122)

/-- The regex class `\w` over ASCII: letters, digits and underscore. -/
def isWordChar (c : Char) : Bool := isDigitChar c || isAlphaChar c || c.toNat = 95

/-- Hexadecimal digit (used by the IPv6 hextet checks). -/
def isHexChar (c : Char) : Bool :=
  isDigitChar c || (97 ≤ c.toNat && c.toNat ≤ 102) || (65 ≤ c.toNat && c.toNat ≤ 70)

/-- The character class `[\d\.:a-fA-F]` from the `SRC=` capture of the log
regex. -/
def isIpChar (c : Char) : Bool :=
  isDigitChar c || c.toNat = 46 || c.toNat = 58 ||
  (97 ≤ c.toNat && c.toNat ≤ 102) || (65 ≤ c.toNat && c.toNat ≤ 70)

/-- The character class `[\d:]` from the timestamp capture of the log regex. -/
def isTimeChar (c : Char) : Bool := isDigitChar c || c.toNat = 58

/-- The regex atom `.` : any character except a newline. -/
def isDotChar (c : Char) : Bool := c.toNat ≠ 10

/-- ASCII lower-casing of one character, the model of Python's `str.lower`
on ASCII input. -/
def toLowerChar (c : Char) : Char :=
  if 65 ≤ c.toNat && c.toNat ≤ 90 then Char.ofNat (c.toNat + 32) else c

/-- ASCII lower-casing of a string. -/
def toLowerStr (s : String) : String := String.mk (s.toList.map toLowerChar)

/-- Numeric value of an ASCII digit character. -/
def digitVal (c : Char) : Nat := c.toNat - 48

/-! ## Python `int()` on strings

`parse_duration_to_seconds` calls `int(duration_str[:-1])`. Python's `int`
accepts surrounding whitespace, an optional sign, and a digit sequence in
which single underscores may separate digits. -/

/-- Strip whitespace from both ends of a character list, as Python's `int`
does before parsing. -/
def stripWs (l : List Char) : List Char :=
  ((l.dropWhile isSpaceChar).reverse.dropWhile isSpaceChar).reverse

/-- Consume the remainder of a digit sequence in which a single underscore
may stand between two digits. `prevUnd` records that the previous character
was an underscore (so the next must be a digit and the string may not end). -/
def digitsGo (acc : Nat) (prevUnd : Bool) : List Char → Option Nat
  | [] => if prevUnd then none else some acc
  | c :: rest =>
    if isDigitChar c then digitsGo (acc * 10 + digitVal c) false rest
    else if c.toNat = 95 && !prevUnd then digitsGo acc true rest
    else none

/-- Parse a nonempty unsigned digit-and-underscore sequence; the first
character must be a digit. -/
def pyNat : List Char → Option Nat
  | c :: rest => if isDigitChar c then digitsGo (digitVal c) false rest else none
  | [] => none

/-- Sign handling of Python's `int` after whitespace stripping: an
optional leading `+` or `-` followed by an unsigned magnitude. -/
def pyIntCore (l : List Char) : Option Int :=
  match l with
  | [] => none
  | c0 :: rest =>
    if c0 = '+' then (pyNat rest).map Int.ofNat
    else if c0 = '-' then (pyNat rest).map (fun n => -(Int.ofNat n))
    else (pyNat l).map Int.ofNat

/-- Model of Python's `int(s)` for decimal string input: optional
whitespace, optional sign, digits with single interior underscores. -/
def pyInt (s : String) : Option Int := pyIntCore (stripWs s.toList)

/-! ## `parse_duration_to_seconds` -/

/-- The `multipliers` dictionary of `parse_duration_to_seconds`. -/
def unitMultiplier (c : Char) : Option Int :=
  if c = 's' then some 1
  else if c = 'm' then some 60
  else if c = 'h' then some 3600
  else if c = 'd' then some 86400
  else none

/-- Model of `parse_duration_to_seconds`: lower-case the input, require a
supported final unit character, parse the rest as an integer, multiply.
Raised `ValueError`s are modelled as `Except.error`. -/
def parse_duration_to_seconds (s : String) : Except String Int :=
  match (toLowerStr s).toList.getLast? with
  | none => Except.error "Invalid duration format"
  | some u =>
    match unitMultiplier u with
    | none => Except.error "Invalid duration format"
    | some m =>
      match pyInt (String.mk (toLowerStr s).toList.dropLast) with
      | none => Except.error "Invalid duration value"
      | some v => Except.ok (v * m)

/-! ## Address classification (`ipaddress.ip_address`)

The dispatcher calls `ipaddress.ip_address(ip)` and branches on the
version. Python first tries `IPv4Address`, then `IPv6Address`, and raises
`ValueError` when both fail. The validity checks below follow CPython's
`ipaddress` module. -/

/-- Split a character list on a single separator character, with the
semantics of Python's `str.split(sep)`: always at least one (possibly
empty) part, one part boundary per separator occurrence. -/
def splitOnChar (sep : Char) : List Char → List (List Char)
  | [] => [[]]
  | c :: rest =>
    if c = sep then [] :: splitOnChar sep rest
    else
      match splitOnChar sep rest with
      | h :: tl => (c :: h) :: tl
      | [] => [[c]]

/-- Decimal value of a list of ASCII digit characters. -/
def decimalValue (l : List Char) : Nat := l.foldl (fun a c => a * 10 + digitVal c) 0

/-- Validity of one dotted-quad octet per `IPv4Address._parse_octet`:
nonempty, ASCII digits only, at most 3 characters, no leading zero, value
at most 255. -/
def octetOk (l : List Char) : Bool :=
  !l.isEmpty && l.all isDigitChar && l.length ≤ 3 &&
  (l.length == 1 || l.head? != some '0') && decimalValue l ≤ 255

/-- Validity per `IPv4Address` of a character list: exactly four
dot-separated valid octets. -/
def isValidIPv4Chars (l : List Char) : Bool :=
  let parts := splitOnChar '.' l
  parts.length == 4 && parts.all octetOk

/-- Validity per `IPv4Address`. -/
def isValidIPv4 (s : String) : Bool := isValidIPv4Chars s.toList

/-- Validity of one IPv6 hextet per `IPv6Address._parse_hextet`: one to
four hexadecimal digits. -/
def hextetOk (l : List Char) : Bool :=
  !l.isEmpty && l.length ≤ 4 && l.all isHexChar

/-- The `'.' in parts[-1]` step of `IPv6Address._ip_int_from_string`: a
dotted final part must be a valid IPv4 address and is replaced by two
hextets. -/
def convertV4Suffix (parts : List (List Char)) : Option (List (List Char)) :=
  match parts.getLast? with
  | none => some parts
  | some last =>
    if last.contains '.' then
      if isValidIPv4Chars last then some (parts.dropLast ++ [['0'], ['0']]) else none
    else some parts

/-- Validity of the colon-separated body per
`IPv6Address._ip_int_from_string`: at least 3 parts, at most 9 after the
IPv4-suffix conversion, at most one empty inner part (the `::`), empty end
parts only adjacent to the `::`, at least one zero group skipped, and every
used part a valid hextet. -/
def isValidIPv6core (addr : List Char) : Bool :=
  let parts0 := splitOnChar ':' addr
  if parts0.length < 3 then false
  else
    match convertV4Suffix parts0 with
    | none => false
    | some parts =>
      let n := parts.length
      if 9 < n then false
      else
        match (List.range n).filter
            (fun i => decide (0 < i) && decide (i < n - 1) && (parts.getD i ['?']).isEmpty) with
        | [] =>
          n == 8 && parts.all hextetOk
        | [skip] =>
          let hi := if parts.head? == some [] then 0 else skip
          let lo := if parts.getLast? == some [] then 0 else n - skip - 1
          (parts.head? != some [] || skip == 1) &&
          (parts.getLast? != some [] || skip == n - 2) &&
          hi + lo ≤ 7 &&
          (parts.take hi ++ parts.drop (n - lo)).all hextetOk
        | _ => false

/-- Validity per `IPv6Address`, including the optional `%scope` suffix of
CPython: a nonempty scope without a further `%`, and a valid core. -/
def isValidIPv6 (s : String) : Bool :=
  match splitOnChar '%' s.toList with
  | [addr] => isValidIPv6core addr
  | [addr, scope] => !scope.isEmpty && isValidIPv6core addr
  | _ => false

/-- Model of `ipaddress.ip_address(ip).version`: `some 4` or `some 6` for a
valid address, `none` when the constructor raises `ValueError`. -/
def classifyIp (s : String) : Option Nat :=
  if isValidIPv4 s then some 4
  else if isValidIPv6 s then some 6
  else none

/-! ## `add_to_ipset` -/

/-- Observable effect of one `add_to_ipset` call: the external commands it
spawns and the report line it prints. -/
structure SinkEffect where
  commands : List (List String)
  report : String
deriving DecidableEq

/-- Model of `add_to_ipset`: in dry-run mode print the intended action and
spawn nothing; otherwise print the action and spawn the `ipset add`
command. -/
def add_to_ipset (ipsetName ip : String) (timeoutSeconds : Int) (dryrun : Bool) : SinkEffect :=
  if dryrun then
    { commands := []
      report := "[DRYRUN] Would add IP '" ++ ip ++ "' to ipset '" ++ ipsetName ++
        "' with a timeout of " ++ toString timeoutSeconds ++ " seconds." }
  else
    { commands := [["ipset", "add", ipsetName, ip, "timeout", toString timeoutSeconds, "-exist"]]
      report := "[ACTION] Adding IP '" ++ ip ++ "' to ipset '" ++ ipsetName ++
        "' with a timeout of " ++ toString timeoutSeconds ++ " seconds." }

/-! ## A small backtracking regex engine

The log regex

`^(?P<timestamp>\w{3}\s+\d+\s+[\d:]+).*(?:IPTABLES|IP6TABLES)-(?P<rule>\w+):.*SRC=(?P<ip>[\d\.:a-fA-F]+).*PROTO=(?P<proto>\w+)`

is embedded as an abstract syntax tree over character classes, literals,
greedy repetitions, alternation, sequencing and numbered capture groups,
and matched with leftmost-greedy backtracking, the strategy of Python's
`re`. Since the pattern is anchored by `^` and has no `MULTILINE` flag,
`re.search` coincides with matching at position 0. -/

/-- Regex abstract syntax. Repetition is restricted to single-character
classes (`x*`, `x+`), which is all the log pattern uses; this keeps the
matcher structurally terminating. -/
inductive RE where
  | cls (p : Char → Bool)
  | lit (s : List Char)
  | seq (a b : RE)
  | alt (a b : RE)
  | star (p : Char → Bool)
  | plus (p : Char → Bool)
  | group (i : Nat) (r : RE)

/-- Capture environment: group number paired with the consumed characters. -/
def Caps : Type := List (Nat × List Char)

/-- Greedy Kleene star over a character class in continuation-passing
style: consume as much as possible, then give back one character at a time
until the continuation succeeds. -/
def starGreedy (p : Char → Bool) (caps : Caps) (k : List Char → Caps → Option Caps) :
    List Char → Option Caps
  | [] => k [] caps
  | c :: rest =>
    if p c then
      match starGreedy p caps k rest with
      | some r => some r
      | none => k (c :: rest) caps
    else k (c :: rest) caps

/-- Backtracking matcher in continuation-passing style. Alternation tries
the left branch first; repetition is greedy; a group records the characters
its body consumed. -/
def reMatch : RE → List Char → Caps → (List Char → Caps → Option Caps) → Option Caps
  | .cls p, input, caps, k =>
    match input with
    | c :: rest => if p c then k rest caps else none
    | [] => none
  | .lit s, input, caps, k =>
    if s.isPrefixOf input then k (input.drop s.length) caps else none
  | .seq a b, input, caps, k =>
    reMatch a input caps (fun rest caps1 => reMatch b rest caps1 k)
  | .alt a b, input, caps, k =>
    match reMatch a input caps k with
    | some r => some r
    | none => reMatch b input caps k
  | .star p, input, caps, k => starGreedy p caps k input
  | .plus p, input, caps, k =>
    match input with
    | c :: rest => if p c then starGreedy p caps k rest else none
    | [] => none
  | .group i r, input, caps, k =>
    reMatch r input caps
      (fun rest caps1 => k rest ((i, input.take (input.length - rest.length)) :: caps1))

/-- Right-nested sequence of a list of regexes. -/
def seqAll (l : List RE) : RE := l.foldr RE.seq (RE.lit [])

/-- The timestamp group `\w{3}\s+\d+\s+[\d:]+`. -/
def timestampRE : RE :=
  seqAll [RE.cls isWordChar, RE.cls isWordChar, RE.cls isWordChar,
    RE.plus isSpaceChar, RE.plus isDigitChar, RE.plus isSpaceChar,
    RE.plus isTimeChar]

/-- The full log pattern of `main`, with groups 1–4 standing for the named
groups `timestamp`, `rule`, `ip` and `proto`. -/
def logPattern : RE :=
  seqAll [RE.group 1 timestampRE,
    RE.star isDotChar,
    RE.alt (RE.lit "IPTABLES".toList) (RE.lit "IP6TABLES".toList),
    RE.lit "-".toList,
    RE.group 2 (RE.plus isWordChar),
    RE.lit ":".toList,
    RE.star isDotChar,
    RE.lit "SRC=".toList,
    RE.group 3 (RE.plus isIpChar),
    RE.star isDotChar,
    RE.lit "PROTO=".toList,
    RE.group 4 (RE.plus isWordChar)]

/-- The four named captures of a successful match of the log pattern. -/
structure MatchData where
  timestamp : String
  rule : String
  ip : String
  proto : String
deriving DecidableEq

/-- Model of `log_pattern.search(line)` followed by `match.groupdict()`. -/
def searchLogPattern (line : String) : Option MatchData :=
  match reMatch logPattern line.toList [] (fun _ caps => some caps) with
  | none => none
  | some caps =>
    match caps.lookup 1, caps.lookup 2, caps.lookup 3, caps.lookup 4 with
    | some ts, some rl, some ip, some pr =>
      some ⟨String.mk ts, String.mk rl, String.mk ip, String.mk pr⟩
    | _, _, _, _ => none

/-! ## `datetime.strptime(ts, "%b %d %H:%M:%S")`

The captured timestamp is parsed with format `"%b %d %H:%M:%S"` and then
re-anchored with `.replace(year=datetime.now().year)`; parse failures are
swallowed (`except ValueError: continue`). CPython's `_strptime` compiles
the format to a case-insensitive regex whose day/hour/minute/second pieces
are the alternations `3[01]|[12]\d|0[1-9]|[1-9]`, `2[0-3]|[0-1]\d|\d`,
`[0-5]\d|\d` and `6[0-1]|[0-5]\d|\d`, requires the whole string to be
consumed, and finally builds a `datetime`, which rejects days beyond the
month length (in the non-leap placeholder year 1900) and seconds above 59.
Parsed instants are modelled as seconds from the start of the anchored
year. -/

/-- Lower-cased three-letter month abbreviations of the C locale. -/
def monthAbbrs : List String :=
  ["jan", "feb", "mar", "apr", "may", "jun", "jul", "aug", "sep", "oct", "nov", "dec"]

/-- Month lengths of the anchored year (`leap` tells whether it is a leap
year). -/
def monthLengths (leap : Bool) : List Nat :=
  [31, if leap then 29 else 28, 31, 30, 31, 30, 31, 31, 30, 31, 30, 31]

/-- Days before the 0-based month `m` in the anchored year. -/
def daysBefore (leap : Bool) (m : Nat) : Nat := (((monthLengths leap).take m).sum)

/-- Day-of-month alternation `3[01]|[12]\d|0[1-9]|[1-9]` applied to a full
digit run. -/
def dayOfRun : List Char → Option Nat
  | [c] => if 49 ≤ c.toNat && c.toNat ≤ 57 then some (digitVal c) else none
  | [c1, c2] =>
    if (c1 = '3' && (c2 = '0' || c2 = '1')) ||
       ((c1 = '1' || c1 = '2') && isDigitChar c2) ||
       (c1 = '0' && 49 ≤ c2.toNat && c2.toNat ≤ 57) then
      some (digitVal c1 * 10 + digitVal c2)
    else none
  | _ => none

/-- Hour alternation `2[0-3]|[0-1]\d|\d` applied to a full digit run. -/
def hourOfRun : List Char → Option Nat
  | [c] => if isDigitChar c then some (digitVal c) else none
  | [c1, c2] =>
    if (c1 = '2' && 48 ≤ c2.toNat && c2.toNat ≤ 51) ||
       ((c1 = '0' || c1 = '1') && isDigitChar c2) then
      some (digitVal c1 * 10 + digitVal c2)
    else none
  | _ => none

/-- Minute alternation `[0-5]\d|\d` applied to a full digit run. -/
def minuteOfRun : List Char → Option Nat
  | [c] => if isDigitChar c then some (digitVal c) else none
  | [c1, c2] =>
    if 48 ≤ c1.toNat && c1.toNat ≤ 53 && isDigitChar c2 then
      some (digitVal c1 * 10 + digitVal c2)
    else none
  | _ => none

/-- Second alternation `6[0-1]|[0-5]\d|\d` applied to a full digit run. -/
def secondOfRun : List Char → Option Nat
  | [c] => if isDigitChar c then some (digitVal c) else none
  | [c1, c2] =>
    if (c1 = '6' && (c2 = '0' || c2 = '1')) ||
       (48 ≤ c1.toNat && c1.toNat ≤ 53 && isDigitChar c2) then
      some (digitVal c1 * 10 + digitVal c2)
    else none
  | _ => none

/-- Consume one or more whitespace characters (the `\s+` that `_strptime`
substitutes for whitespace in the format). -/
def takeWs : List Char → Option (List Char)
  | c :: rest => if isSpaceChar c then some (rest.dropWhile isSpaceChar) else none
  | [] => none

/-- Model of `datetime.strptime(s, "%b %d %H:%M:%S")` anchored to a year
whose leapness is `leap`, returning seconds from the start of that year.
`none` models the raised `ValueError`. -/
def parseTimestamp (leap : Bool) (s : String) : Option Nat :=
  match s.toList.map toLowerChar with
  | a :: b :: c :: rest =>
    match (monthAbbrs.indexOf? (String.mk [a, b, c]) : Option Nat) with
    | none => none
    | some mo =>
      match takeWs rest with
      | none => none
      | some r1 =>
        let dspan := r1.span isDigitChar
        match dayOfRun dspan.1, takeWs dspan.2 with
        | some d, some r3 =>
          let hspan := r3.span isDigitChar
          match hourOfRun hspan.1, hspan.2 with
          | some h, ':' :: r5 =>
            let mspan := r5.span isDigitChar
            match minuteOfRun mspan.1, mspan.2 with
            | some mi, ':' :: r7 =>
              let sspan := r7.span isDigitChar
              match secondOfRun sspan.1, sspan.2 with
              | some se, [] =>
                if d ≤ (monthLengths false).getD mo 0 && se ≤ 59 then
                  some ((daysBefore leap mo + (d - 1)) * 86400 + h * 3600 + mi * 60 + se)
                else none
              | _, _ => none
            | _, _ => none
          | _, _ => none
        | _, _ => none
  | _ => none

/-! ## Phase 1: reading and filtering the log -/

/-- Append a timestamp to the timeline of `ip`, preserving first-insertion
order of keys: the model of `defaultdict(list)` plus `append`. -/
def indexAppend (idx : List (String × List Nat)) (ip : String) (t : Nat) :
    List (String × List Nat) :=
  match idx with
  | [] => [(ip, [t])]
  | (k, v) :: rest =>
    if k = ip then (k, v ++ [t]) :: rest else (k, v) :: indexAppend rest ip t

/-- Mutable state of the reading loop of `main`. -/
structure ScanState where
  totalLines : Nat
  matchedLines : Nat
  index : List (String × List Nat)
deriving DecidableEq

/-- One iteration of the reading loop: count the line, match the pattern,
filter on rule and protocol (counting a match before the timestamp is
parsed), then parse the timestamp and append it to the address's
timeline. -/
def processLine (rule proto : String) (leap : Bool) (st : ScanState) (line : String) :
    ScanState :=
  let st1 : ScanState := { st with totalLines := st.totalLines + 1 }
  match searchLogPattern line with
  | none => st1
  | some md =>
    if toLowerStr md.rule ≠ rule || toLowerStr md.proto ≠ proto then st1
    else
      let st2 : ScanState := { st1 with matchedLines := st1.matchedLines + 1 }
      match parseTimestamp leap md.timestamp with
      | some t => { st2 with index := indexAppend st2.index md.ip t }
      | none => st2

/-- Phase 1 of `main` over a list of log lines. -/
def runPhase1 (rule proto : String) (leap : Bool) (lines : List String) : ScanState :=
  lines.foldl (processLine rule proto leap) ⟨0, 0, []⟩

/-- The Event Extractor of the specification: the per-line part of phase 1
that yields a structured event (source address and instant), or nothing for
a dropped line. -/
def extractEvent (rule proto : String) (leap : Bool) (line : String) :
    Option (String × Nat) :=
  match searchLogPattern line with
  | none => none
  | some md =>
    if toLowerStr md.rule ≠ rule || toLowerStr md.proto ≠ proto then none
    else (parseTimestamp leap md.timestamp).map (fun t => (md.ip, t))

/-! ## Phase 2: the Window Scanner and the Action Dispatcher

For each address whose timeline has at least `K` entries, the code sorts
the timeline and, for `i` in `range(len(t) - K + 1)`, counts
`1 + #{j in (i, n) | t[j] <= t[i] + W}`; at the first `i` whose count
reaches `K` it classifies the address, appends `"_v6"` to the ipset name
for IPv6, reports the violation, calls `add_to_ipset` and breaks — except
that an unclassifiable address only prints a warning and continues with the
next window start. -/

/-- Python's stable `list.sort()` on a timeline of naturals. -/
def sortTimeline (t : List Nat) : List Nat := List.insertionSort (· ≤ ·) t

/-- The hit count of the window starting at index `i`:
`1 + sum(1 for j in range(i+1, len(t)) if t[j] <= t[i] + W)`. -/
def hitsInWindow (t : List Nat) (i W : Nat) : Nat :=
  1 + (List.range' (i + 1) (t.length - (i + 1))).countP
    (fun j => t.getD j 0 ≤ t.getD i 0 + W)

/-- The indices `j > i` whose timestamps fall inside the window starting at
`t[i]`, boundary included. -/
def countedIndices (t : List Nat) (i W : Nat) : List Nat :=
  (List.range' (i + 1) (t.length - (i + 1))).filter
    (fun j => t.getD j 0 ≤ t.getD i 0 + W)

/-- A reported window violation: window start, window end and hit count. -/
structure WindowViolation where
  windowStart : Nat
  windowEnd : Nat
  hitCount : Nat
deriving DecidableEq

/-- The pure view of the Window Scanner on one sorted timeline: the first
(lowest start index) qualifying window, if any. -/
def scanTimeline (t : List Nat) (K W : Nat) : Option WindowViolation :=
  if t.length < K then none
  else
    match (List.range (t.length - K + 1)).find? (fun i => K ≤ hitsInWindow t i W) with
    | none => none
    | some i => some ⟨t.getD i 0, t.getD i 0 + W, hitsInWindow t i W⟩

/-- Variant of the scanner in which the start-index accesses
`timestamps[i]` are checked: an out-of-range access (an `IndexError` in
Python) yields `none` for the whole scan. -/
def scanLoopChecked (t : List Nat) (K W : Nat) : List Nat → Option (Option WindowViolation)
  | [] => some none
  | i :: rest =>
    if _ : i < t.length then
      if K ≤ hitsInWindow t i W then
        some (some ⟨t.getD i 0, t.getD i 0 + W, hitsInWindow t i W⟩)
      else scanLoopChecked t K W rest
    else none

/-- The checked scanner over the same start indices as the code. -/
def scanTimelineChecked (t : List Nat) (K W : Nat) : Option (Option WindowViolation) :=
  if t.length < K then some none
  else scanLoopChecked t K W (List.range (t.length - K + 1))

/-- Observable events of phase 2 for one address: the defensive-validation
warning, the violation report, and a sink invocation with its target ipset
name and arguments. -/
inductive ScanEvent where
  | warning (ip : String)
  | violation (ip : String) (version : Nat) (windowStart windowEnd hitCount : Nat)
  | sink (target ip : String) (ttl : Int) (dryrun : Bool)
deriving DecidableEq

/-- Truth of `e` being a violation report. -/
def isViolationEvent : ScanEvent → Bool
  | .violation _ _ _ _ _ => true
  | _ => false

/-- Truth of `e` being a sink invocation. -/
def isSinkEvent : ScanEvent → Bool
  | .sink _ _ _ _ => true
  | _ => false

/-- The inner loop of phase 2 over the remaining start indices of one
address, emitting the observable events in order. A qualifying window
with a classifiable address reports, invokes the sink and breaks; an
unclassifiable one warns and continues. -/
def scanLoop (base ip : String) (K W : Nat) (ttl : Int) (dry : Bool) (t : List Nat) :
    List Nat → List ScanEvent
  | [] => []
  | i :: rest =>
    if K ≤ hitsInWindow t i W then
      match classifyIp ip with
      | none => ScanEvent.warning ip :: scanLoop base ip K W ttl dry t rest
      | some v =>
        let target := if v = 6 then base ++ "_v6" else base
        [ScanEvent.violation ip v (t.getD i 0) (t.getD i 0 + W) (hitsInWindow t i W),
         ScanEvent.sink target ip ttl dry]
    else scanLoop base ip K W ttl dry t rest

/-- Phase 2 for one address: skip short timelines, sort, and run the
window loop over `range(len(t) - K + 1)`. -/
def scanAddress (base ip : String) (K W : Nat) (ttl : Int) (dry : Bool) (t : List Nat) :
    List ScanEvent :=
  if t.length < K then []
  else
    let ts := sortTimeline t
    scanLoop base ip K W ttl dry ts (List.range (ts.length - K + 1))

/-- Phase 2 over the whole index, in insertion order of the addresses. -/
def runPhase2 (base : String) (K W : Nat) (ttl : Int) (dry : Bool)
    (idx : List (String × List Nat)) : List ScanEvent :=
  (idx.map (fun e => scanAddress base e.1 K W ttl dry e.2)).flatten

/-! ## Per-line accounting used to relate matched lines and events -/

/-- Contribution of one line to the `matched_lines` counter: 1 when the
structural pattern and the rule/protocol filter match, else 0. -/
def lineMatched (rule proto : String) (line : String) : Nat :=
  match searchLogPattern line with
  | none => 0
  | some md => if toLowerStr md.rule ≠ rule || toLowerStr md.proto ≠ proto then 0 else 1

/-- Contribution of one line to the timelines: 1 when it is matched and its
timestamp parses, else 0. -/
def lineEvent (rule proto : String) (leap : Bool) (line : String) : Nat :=
  match searchLogPattern line with
  | none => 0
  | some md =>
    if toLowerStr md.rule ≠ rule || toLowerStr md.proto ≠ proto then 0
    else
      match parseTimestamp leap md.timestamp with
      | some _ => 1
      | none => 0

/-- Truth of a line matching the pattern and filter while its timestamp
fails to parse. -/
def matchedNoParse (rule proto : String) (leap : Bool) (line : String) : Bool :=
  match searchLogPattern line with
  | none => false
  | some md =>
    if toLowerStr md.rule ≠ rule || toLowerStr md.proto ≠ proto then false
    else (parseTimestamp leap md.timestamp).isNone

/-- Total number of timestamps stored across all timelines of the index. -/
def sumTimelineLengths (idx : List (String × List Nat)) : Nat :=
  (idx.map (fun e => e.2.length)).sum

/-! ## Concrete log lines used to separate the spec from the code -/

/-- A log line whose `SRC=` field matches the character class of the log
regex but is not a parseable IP address (five dotted octets). -/
def c3Line : String :=
  "Jan 1 12:00:00 host kernel: IPTABLES-BLOCKED: SRC=1.2.3.4.5 DST=9.9.9.9 PROTO=TCP"

/-- A log line that matches the pattern and filter but whose timestamp
token `Xyz 1 12:00:00` fails `strptime` (no such month). -/
def c10BadLine : String :=
  "Xyz 1 12:00:00 host kernel: IPTABLES-BLOCKED: SRC=1.2.3.4 PROTO=TCP"

/-- A log line that is matched and produces an event. -/
def c10GoodLine : String :=
  "Jan 1 12:00:00 host kernel: IPTABLES-BLOCKED: SRC=1.2.3.4 PROTO=TCP"

/-! ## Helper lemmas about the Window Scanner -/

/-- A scan succeeds exactly when the timeline is long enough and some start
index in the loop range qualifies. -/
theorem scanTimeline_isSome_iff (t : List Nat) (K W : Nat) :
    (scanTimeline t K W).isSome = true ↔
      K ≤ t.length ∧ ∃ i ∈ List.range (t.length - K + 1), K ≤ hitsInWindow t i W := by
  unfold scanTimeline
  by_cases h : t.length < K
  · simp only [if_pos h, Option.isSome_none, Bool.false_eq_true, false_iff, not_and]
    intro hK
    omega
  · rw [if_neg h]
    constructor
    · intro hs
      refine ⟨by omega, ?_⟩
      rcases hfind : (List.range (t.length - K + 1)).find?
          (fun i => K ≤ hitsInWindow t i W) with _ | i
      · rw [hfind] at hs
        simp at hs
      · have := List.find?_some hfind
        have hmem := List.mem_of_find?_eq_some hfind
        exact ⟨i, hmem, by simpa using this⟩
    · rintro ⟨-, i, hmem, hq⟩
      have : ((List.range (t.length - K + 1)).find?
          (fun i => K ≤ hitsInWindow t i W)).isSome = true :=
        List.find?_isSome.mpr ⟨i, hmem, by simpa using hq⟩
      rcases hfind : (List.range (t.length - K + 1)).find?
          (fun i => K ≤ hitsInWindow t i W) with _ | j
      · rw [hfind] at this
        simp at this
      · rfl

/-! ## C1: the end-to-end example timeline -/

/-- C1. On the timeline `[0, 10, 20, 61]` the scanner with `K = 3`,
`W = 60` reports the window `[0, 60]` with 3 hits (the event at 61 is
excluded); with `K = 4` it reports nothing; with `K = 3`, `W = 61` it
reports the window `[0, 61]` with 4 hits. -/
theorem C1_end_to_end_example :
    scanTimeline [0, 10, 20, 61] 3 60 = some ⟨0, 60, 3⟩ ∧
    scanTimeline [0, 10, 20, 61] 4 60 = none ∧
    scanTimeline [0, 10, 20, 61] 3 61 = some ⟨0, 61, 4⟩ := by
  refine ⟨?_, ?_, ?_⟩ <;> decide

/-! ## C4: inclusive window boundary -/

/-- C4. A timestamp lying exactly `W` after the window start is counted
inside the window (the comparison `t[j] <= window_end` is inclusive), and a
timeline of exactly `K` points inside `[t0, t0 + W]` with its head at `t0`
is reported as a violation with hit count `K`. -/
theorem C4_boundary_inclusive (t : List Nat) (K W t0 : Nat) :
    (∀ i j : Nat, i < j → j < t.length → t.getD j 0 = t.getD i 0 + W →
      j ∈ countedIndices t i W) ∧
    (t.Sorted (· ≤ ·) → t.length = K → 1 ≤ K → t.head? = some t0 →
      (∀ x ∈ t, t0 ≤ x ∧ x ≤ t0 + W) →
      scanTimeline t K W = some ⟨t0, t0 + W, K⟩) := by
  constructor
  · intro i j hij hj hbound
    unfold countedIndices
    rw [List.mem_filter]
    refine ⟨List.mem_range'_1.mpr ⟨by omega, by omega⟩, ?_⟩
    simp only [decide_eq_true_eq]
    omega
  · intro hsort hlen hK hhead hin
    have h0 : 0 < t.length := by omega
    have hget0 : t.getD 0 0 = t0 := by
      rcases t with _ | ⟨a, t'⟩
      · simp at h0
      · simpa using congrArg (fun o => o.getD 0) hhead
    have hq : hitsInWindow t 0 W = K := by
      unfold hitsInWindow
      have hall : ∀ j ∈ List.range' 1 (t.length - 1),
          (fun j => decide (t.getD j 0 ≤ t.getD 0 0 + W)) j = true := by
        intro j hj
        have hj' := List.mem_range'_1.mp hj
        have hjlt : j < t.length := by omega
        have hmem : t.getD j 0 ∈ t := by
          rw [List.getD_eq_getElem t 0 hjlt]
          exact List.getElem_mem hjlt
        have := (hin _ hmem).2
        simp only [hget0]
        simpa using this
      rw [List.countP_eq_length_filter, List.filter_eq_self.mpr hall,
        List.length_range']
      omega
    unfold scanTimeline
    rw [if_neg (by omega)]
    have hrange : t.length - K + 1 = 1 := by omega
    rw [hrange]
    have : List.range 1 = [0] := rfl
    rw [this, List.find?_cons_of_pos _ (by simp [hq])]
    show some (WindowViolation.mk (t.getD 0 0) (t.getD 0 0 + W) (hitsInWindow t 0 W)) =
      some (WindowViolation.mk t0 (t0 + W) K)
    rw [hget0, hq]

/-- Witness for C4 on the timeline `[5, 8]` with `K = 2`, `W = 3`: the
point at `5 + 3` is counted and the scan reports the violation. -/
theorem C4_boundary_inclusive_witness :
    1 ∈ countedIndices [5, 8] 0 3 ∧
    scanTimeline [5, 8] 2 3 = some ⟨5, 8, 2⟩ := by
  constructor
  · exact (C4_boundary_inclusive [5, 8] 2 3 5).1 0 1 (by decide) (by decide) (by decide)
  · exact (C4_boundary_inclusive [5, 8] 2 3 5).2 (by decide)
      (by decide) (by decide) (by decide) (by decide)

/-! ## C5: existence of a violation is antitone in the threshold -/

/-- C5. For a fixed timeline and window, if the scanner reports a violation
at threshold `K'` then it reports one at every positive `K ≤ K'`, and if it
reports none at `K` it reports none at any `K' ≥ K`. -/
theorem C5_threshold_antitone (t : List Nat) (W K K' : Nat) (_hK : 1 ≤ K) (hKK : K ≤ K') :
    ((scanTimeline t K' W).isSome = true → (scanTimeline t K W).isSome = true) ∧
    ((scanTimeline t K W).isSome = false → (scanTimeline t K' W).isSome = false) := by
  have hfwd : (scanTimeline t K' W).isSome = true → (scanTimeline t K W).isSome = true := by
    intro h
    rcases (scanTimeline_isSome_iff t K' W).mp h with ⟨hlen, i, hmem, hq⟩
    refine (scanTimeline_isSome_iff t K W).mpr ⟨by omega, i, ?_, by omega⟩
    rw [List.mem_range] at hmem ⊢
    omega
  refine ⟨hfwd, ?_⟩
  intro h
  cases hks : (scanTimeline t K' W).isSome
  · rfl
  · exact (hfwd hks).symm.trans h

/-- Witness for C5 at `t = [0, 1]`, `W = 10`, `K = 1`, `K' = 2`. -/
theorem C5_threshold_antitone_witness :
    (scanTimeline [0, 1] 1 10).isSome = true :=
  (C5_threshold_antitone [0, 1] 10 1 2 (by decide) (by decide)).1 (by decide)

/-! ## C9: all scanner indices are in bounds when K is positive -/

/-- The checked loop agrees with `find?` over any set of in-bounds start
indices. -/
theorem scanLoopChecked_eq (t : List Nat) (K W : Nat) (l : List Nat)
    (hl : ∀ i ∈ l, i < t.length) :
    scanLoopChecked t K W l =
      some (match l.find? (fun i => K ≤ hitsInWindow t i W) with
        | none => none
        | some i => some ⟨t.getD i 0, t.getD i 0 + W, hitsInWindow t i W⟩) := by
  induction l with
  | nil => rfl
  | cons i rest ih =>
    have hi : i < t.length := hl i (List.mem_cons_self i rest)
    unfold scanLoopChecked
    rw [dif_pos hi]
    by_cases hq : K ≤ hitsInWindow t i W
    · rw [if_pos hq, List.find?_cons_of_pos _ (by simpa using hq)]
    · rw [if_neg hq, List.find?_cons_of_neg _ (by simpa using hq)]
      exact ih (fun j hj => hl j (List.mem_cons_of_mem i hj))

/-- C9. With a positive threshold every index used by the scanner is in
bounds: the inner count touches only indices below the length, and the
checked scanner (whose out-of-range branch models Python's `IndexError`)
returns the unchecked scan result rather than the error. -/
theorem C9_index_bounds (t : List Nat) (K W : Nat) (hK : 1 ≤ K) :
    (∀ i : Nat, ∀ j ∈ List.range' (i + 1) (t.length - (i + 1)), j < t.length) ∧
    (∀ i ∈ List.range (t.length - K + 1), K ≤ t.length → i < t.length) ∧
    scanTimelineChecked t K W = some (scanTimeline t K W) := by
  refine ⟨?_, ?_, ?_⟩
  · intro i j hj
    have := List.mem_range'_1.mp hj
    omega
  · intro i hi hlen
    rw [List.mem_range] at hi
    omega
  · unfold scanTimelineChecked scanTimeline
    by_cases h : t.length < K
    · rw [if_pos h, if_pos h]
    · rw [if_neg h, if_neg h]
      rw [scanLoopChecked_eq t K W _ (fun i hi => by
        rw [List.mem_range] at hi
        omega)]

/-- Witness for C9 at `t = [3, 4]`, `K = 1`, `W = 0`. -/
theorem C9_index_bounds_witness :
    scanTimelineChecked [3, 4] 1 0 = some (scanTimeline [3, 4] 1 0) :=
  (C9_index_bounds [3, 4] 1 0 (by decide)).2.2

/-! ## C6: the scan is invariant under permutation of the raw timeline -/

/-- Sorting is determined by the multiset of timestamps. -/
theorem sortTimeline_eq_of_perm (l1 l2 : List Nat) (h : l1.Perm l2) :
    sortTimeline l1 = sortTimeline l2 := by
  have hp : (sortTimeline l1).Perm (sortTimeline l2) :=
    ((List.perm_insertionSort _ l1).trans h).trans (List.perm_insertionSort _ l2).symm
  exact List.eq_of_perm_of_sorted hp
    (List.sorted_insertionSort _ l1) (List.sorted_insertionSort _ l2)

/-- C6. The scan of an address — both its reported violation and the full
event trace — depends only on the multiset of extracted timestamps, because
the timeline is sorted before scanning. -/
theorem C6_permutation_invariance (base ip : String) (K W : Nat) (ttl : Int)
    (dry : Bool) (l1 l2 : List Nat) (h : l1.Perm l2) :
    scanTimeline (sortTimeline l1) K W = scanTimeline (sortTimeline l2) K W ∧
    scanAddress base ip K W ttl dry l1 = scanAddress base ip K W ttl dry l2 := by
  have hsort := sortTimeline_eq_of_perm l1 l2 h
  constructor
  · rw [hsort]
  · unfold scanAddress
    rw [h.length_eq, hsort]

/-- Witness for C6 on the permuted timelines `[61, 0, 20, 10]` and
`[0, 10, 20, 61]`. -/
theorem C6_permutation_invariance_witness :
    scanTimeline (sortTimeline [61, 0, 20, 10]) 3 60 =
      scanTimeline (sortTimeline [0, 10, 20, 61]) 3 60 :=
  (C6_permutation_invariance "blk" "1.2.3.4" 3 60 3600 false
    [61, 0, 20, 10] [0, 10, 20, 61] (by decide)).1

/-! ## Helper lemmas about the phase-2 loop -/

/-- When the address does not classify, the loop only ever warns. -/
theorem scanLoop_warning_only (base ip : String) (K W : Nat) (ttl : Int) (dry : Bool)
    (t : List Nat) (hc : classifyIp ip = none) :
    ∀ l : List Nat, ∀ e ∈ scanLoop base ip K W ttl dry t l, e = ScanEvent.warning ip := by
  intro l
  induction l with
  | nil => intro e he; simp [scanLoop] at he
  | cons i rest ih =>
    intro e he
    unfold scanLoop at he
    by_cases hq : K ≤ hitsInWindow t i W
    · rw [if_pos hq, hc] at he
      rcases List.mem_cons.mp he with h | h
      · exact h
      · exact ih e h
    · rw [if_neg hq] at he
      exact ih e he

/-- The loop emits at most one violation report. -/
theorem scanLoop_countP_viol (base ip : String) (K W : Nat) (ttl : Int) (dry : Bool)
    (t : List Nat) :
    ∀ l : List Nat, (scanLoop base ip K W ttl dry t l).countP isViolationEvent ≤ 1 := by
  intro l
  induction l with
  | nil => simp [scanLoop]
  | cons i rest ih =>
    unfold scanLoop
    by_cases hq : K ≤ hitsInWindow t i W
    · rw [if_pos hq]
      cases hc : classifyIp ip with
      | none => simpa [List.countP_cons, isViolationEvent] using ih
      | some v => simp [List.countP_cons, isViolationEvent, isSinkEvent]
    · rw [if_neg hq]
      exact ih

/-- The loop makes at most one sink invocation. -/
theorem scanLoop_countP_sink (base ip : String) (K W : Nat) (ttl : Int) (dry : Bool)
    (t : List Nat) :
    ∀ l : List Nat, (scanLoop base ip K W ttl dry t l).countP isSinkEvent ≤ 1 := by
  intro l
  induction l with
  | nil => simp [scanLoop]
  | cons i rest ih =>
    unfold scanLoop
    by_cases hq : K ≤ hitsInWindow t i W
    · rw [if_pos hq]
      cases hc : classifyIp ip with
      | none => simpa [List.countP_cons, isSinkEvent] using ih
      | some v => simp [List.countP_cons, isSinkEvent]
    · rw [if_neg hq]
      exact ih

/-- A violation emitted by the loop belongs to the first qualifying start
index of the (strictly increasing) index list, and carries that window's
data. -/
theorem scanLoop_viol_mem (base ip : String) (K W : Nat) (ttl : Int) (dry : Bool)
    (t : List Nat) (v0 : Nat) (hc : classifyIp ip = some v0) :
    ∀ l : List Nat, List.Pairwise (· < ·) l →
      ∀ ip' v ws we h, ScanEvent.violation ip' v ws we h ∈ scanLoop base ip K W ttl dry t l →
        ∃ i ∈ l, K ≤ hitsInWindow t i W ∧
          (∀ j ∈ l, j < i → ¬ K ≤ hitsInWindow t j W) ∧
          ip' = ip ∧ v = v0 ∧ ws = t.getD i 0 ∧ we = ws + W ∧ h = hitsInWindow t i W := by
  intro l
  induction l with
  | nil => intro _ ip' v ws we h hmem; simp [scanLoop] at hmem
  | cons i rest ih =>
    intro hpw ip' v ws we h hmem
    have hpw' := List.pairwise_cons.mp hpw
    unfold scanLoop at hmem
    by_cases hq : K ≤ hitsInWindow t i W
    · rw [if_pos hq, hc] at hmem
      rcases List.mem_cons.mp hmem with heq | hmem'
      · obtain ⟨h1, h2, h3, h4, h5⟩ := ScanEvent.violation.inj heq
        refine ⟨i, List.mem_cons_self i rest, hq, ?_, h1, h2, h3, by rw [h4, h3], h5⟩
        intro j hj hji
        rcases List.mem_cons.mp hj with rfl | hjr
        · omega
        · exact absurd (hpw'.1 j hjr) (by omega)
      · rcases List.mem_cons.mp hmem' with heq | hmem''
        · exact absurd heq (by simp)
        · simp at hmem''
    · rw [if_neg hq] at hmem
      obtain ⟨i', hi'mem, hkq, hmin, rest'⟩ := ih hpw'.2 ip' v ws we h hmem
      refine ⟨i', List.mem_cons_of_mem i hi'mem, hkq, ?_, rest'⟩
      intro j hj hji
      rcases List.mem_cons.mp hj with rfl | hjr
      · exact hq
      · exact hmin j hjr hji

/-- A sink invocation emitted by the loop carries the loop's address, TTL
and dry-run flag, and its target is the base ipset name with `_v6`
appended exactly for an IPv6 address. -/
theorem scanLoop_sink_mem (base ip : String) (K W : Nat) (ttl : Int) (dry : Bool)
    (t : List Nat) :
    ∀ l : List Nat, ∀ target ip' ttl' dry',
      ScanEvent.sink target ip' ttl' dry' ∈ scanLoop base ip K W ttl dry t l →
        ip' = ip ∧ ttl' = ttl ∧ dry' = dry ∧
        ∃ v, classifyIp ip = some v ∧ target = (if v = 6 then base ++ "_v6" else base) := by
  intro l
  induction l with
  | nil => intro target ip' ttl' dry' hmem; simp [scanLoop] at hmem
  | cons i rest ih =>
    intro target ip' ttl' dry' hmem
    unfold scanLoop at hmem
    by_cases hq : K ≤ hitsInWindow t i W
    · rw [if_pos hq] at hmem
      cases hc : classifyIp ip with
      | none =>
        rw [hc] at hmem
        rcases List.mem_cons.mp hmem with heq | hmem'
        · exact absurd heq (by simp)
        · have := scanLoop_warning_only base ip K W ttl dry t hc rest _ hmem'
          exact absurd this (by simp)
      | some v =>
        rw [hc] at hmem
        rcases List.mem_cons.mp hmem with heq | hmem'
        · exact absurd heq (by simp)
        · rcases List.mem_cons.mp hmem' with heq | hmem''
          · obtain ⟨h1, h2, h3, h4⟩ := ScanEvent.sink.inj heq
            exact ⟨h2, h3, h4, v, rfl, h1⟩
          · simp at hmem''
    · rw [if_neg hq] at hmem
      exact ih target ip' ttl' dry' hmem

/-! ## C2: at most one violation and one sink call per address per scan -/

/-- C2. For every address and timeline, a scan reports at most one
violation and invokes the sink at most once, and any reported violation is
the one at the lowest qualifying start index of the sorted timeline. -/
theorem C2_single_violation_per_scan (base ip : String) (K W : Nat) (ttl : Int)
    (dry : Bool) (t : List Nat) :
    (scanAddress base ip K W ttl dry t).countP isViolationEvent ≤ 1 ∧
    (scanAddress base ip K W ttl dry t).countP isSinkEvent ≤ 1 ∧
    (∀ ip' v ws we h,
      ScanEvent.violation ip' v ws we h ∈ scanAddress base ip K W ttl dry t →
      ∃ i ∈ List.range ((sortTimeline t).length - K + 1),
        K ≤ hitsInWindow (sortTimeline t) i W ∧
        (∀ j < i, ¬ K ≤ hitsInWindow (sortTimeline t) j W) ∧
        ws = (sortTimeline t).getD i 0 ∧ we = ws + W ∧
        h = hitsInWindow (sortTimeline t) i W) := by
  unfold scanAddress
  by_cases hlen : t.length < K
  · rw [if_pos hlen]
    refine ⟨by simp, by simp, ?_⟩
    intro ip' v ws we h hmem
    simp at hmem
  · rw [if_neg hlen]
    refine ⟨scanLoop_countP_viol _ _ _ _ _ _ _ _, scanLoop_countP_sink _ _ _ _ _ _ _ _, ?_⟩
    intro ip' v ws we h hmem
    cases hc : classifyIp ip with
    | none =>
      have := scanLoop_warning_only base ip K W ttl dry (sortTimeline t) hc _ _ hmem
      exact absurd this (by simp)
    | some v0 =>
      obtain ⟨i, himem, hq, hmin, -, -, hws, hwe, hh⟩ :=
        scanLoop_viol_mem base ip K W ttl dry (sortTimeline t) v0 hc _
          (List.pairwise_lt_range _) ip' v ws we h hmem
      refine ⟨i, himem, hq, ?_, hws, hwe, hh⟩
      intro j hji
      have hi := List.mem_range.mp himem
      exact hmin j (List.mem_range.mpr (by omega)) hji

/-- Witness for C2 on the address `1.2.3.4` with timeline `[0, 10, 20, 61]`,
`K = 3`, `W = 60`: the reported window starts at index 0. -/
theorem C2_single_violation_per_scan_witness :
    ∃ i ∈ List.range ((sortTimeline [0, 10, 20, 61]).length - 3 + 1),
      3 ≤ hitsInWindow (sortTimeline [0, 10, 20, 61]) i 60 ∧
      (∀ j < i, ¬ 3 ≤ hitsInWindow (sortTimeline [0, 10, 20, 61]) j 60) ∧
      (0 : Nat) = (sortTimeline [0, 10, 20, 61]).getD i 0 ∧ (60 : Nat) = 0 + 60 ∧
      (3 : Nat) = hitsInWindow (sortTimeline [0, 10, 20, 61]) i 60 :=
  (C2_single_violation_per_scan "blk" "1.2.3.4" 3 60 3600 false [0, 10, 20, 61]).2.2
    "1.2.3.4" 4 0 60 3 (by decide)

/-! ## C8: sink routing and dry-run behaviour -/

/-- C8. Every sink invocation of a scan carries the configured TTL and
dry-run flag and targets the base ipset name, with `_v6` appended exactly
for an IPv6 address; and in dry-run mode `add_to_ipset` spawns no command
while still printing a report. -/
theorem C8_dispatch_routing (base ip : String) (K W : Nat) (ttl : Int) (dry : Bool)
    (t : List Nat) :
    (∀ target ip' ttl' dry',
      ScanEvent.sink target ip' ttl' dry' ∈ scanAddress base ip K W ttl dry t →
      ip' = ip ∧ ttl' = ttl ∧ dry' = dry ∧
      (classifyIp ip = some 6 → target = base ++ "_v6") ∧
      (classifyIp ip = some 4 → target = base)) ∧
    (∀ (name addr : String) (ts : Int),
      (add_to_ipset name addr ts true).commands = [] ∧
      (add_to_ipset name addr ts true).report ≠ "") := by
  constructor
  · intro target ip' ttl' dry' hmem
    unfold scanAddress at hmem
    by_cases hlen : t.length < K
    · rw [if_pos hlen] at hmem
      simp at hmem
    · rw [if_neg hlen] at hmem
      obtain ⟨h1, h2, h3, v, hv, htarget⟩ :=
        scanLoop_sink_mem base ip K W ttl dry (sortTimeline t) _ target ip' ttl' dry' hmem
      refine ⟨h1, h2, h3, ?_, ?_⟩
      · intro h6
        rw [hv] at h6
        obtain rfl := Option.some.inj h6
        rw [htarget, if_pos rfl]
      · intro h4
        rw [hv] at h4
        obtain rfl := Option.some.inj h4
        rw [htarget, if_neg (by decide)]
  · intro name addr ts
    refine ⟨rfl, ?_⟩
    intro hrep
    have hdata := congrArg String.data hrep
    rw [show (add_to_ipset name addr ts true).report =
      "[DRYRUN] Would add IP '" ++ addr ++ "' to ipset '" ++ name ++
        "' with a timeout of " ++ toString ts ++ " seconds." from rfl] at hdata
    simp [String.data_append] at hdata

/-- Witness for C8: the IPv6 address `2001:db8::1` routes to `blk_v6`. -/
theorem C8_dispatch_routing_witness :
    "blk_v6" = "blk" ++ "_v6" ∧ (add_to_ipset "blk" "2001:db8::1" 100 true).commands = [] :=
  ⟨((C8_dispatch_routing "blk" "2001:db8::1" 2 5 100 true [7, 0, 3]).1
      "blk_v6" "2001:db8::1" 100 true (by decide)).2.2.2.1 (by decide),
   ((C8_dispatch_routing "blk" "2001:db8::1" 2 5 100 true [7, 0, 3]).2 "blk" "2001:db8::1" 100).1⟩

/-! ## Helper lemmas about `pyInt` and lower-casing -/

/-- Lower-casing fixes any character outside the upper-case ASCII range. -/
theorem toLowerChar_eq_self (c : Char) (h : c.toNat < 65 ∨ 90 < c.toNat) :
    toLowerChar c = c := by
  unfold toLowerChar
  rw [if_neg]
  simp only [Bool.and_eq_true, decide_eq_true_eq, not_and]
  omega

/-- A map that fixes every element of a list fixes the list. -/
theorem map_eq_self_of_forall {α : Type} (f : α → α) (l : List α)
    (h : ∀ x ∈ l, f x = x) : l.map f = l := by
  induction l with
  | nil => rfl
  | cons a l ih =>
    rw [List.map_cons, h a (List.mem_cons_self a l),
      ih (fun x hx => h x (List.mem_cons_of_mem a hx))]

/-- Characters consumed by `digitsGo` are digits or underscores. -/
theorem digitsGo_chars (l : List Char) : ∀ (acc : Nat) (p : Bool) (n : Nat),
    digitsGo acc p l = some n → ∀ c ∈ l, isDigitChar c = true ∨ c.toNat = 95 := by
  induction l with
  | nil =>
    intro acc p n h c hc
    simp at hc
  | cons c0 rest ih =>
    intro acc p n h c hc
    have h' : (if isDigitChar c0 then digitsGo (acc * 10 + digitVal c0) false rest
        else if c0.toNat = 95 && !p then digitsGo acc true rest
        else none) = some n := h
    by_cases hd : isDigitChar c0
    · rw [if_pos hd] at h'
      rcases List.mem_cons.mp hc with rfl | hm
      · exact Or.inl hd
      · exact ih _ _ _ h' c hm
    · rw [if_neg hd] at h'
      by_cases hu : (decide (c0.toNat = 95) && !p) = true
      · rw [if_pos hu] at h'
        simp only [Bool.and_eq_true, decide_eq_true_eq] at hu
        rcases List.mem_cons.mp hc with rfl | hm
        · exact Or.inr hu.1
        · exact ih _ _ _ h' c hm
      · rw [if_neg hu] at h'
        exact absurd h' (by simp)

/-- Characters consumed by `pyNat` are digits or underscores. -/
theorem pyNat_chars (l : List Char) (n : Nat) (h : pyNat l = some n) :
    ∀ c ∈ l, isDigitChar c = true ∨ c.toNat = 95 := by
  cases l with
  | nil => simp [pyNat] at h
  | cons c0 rest =>
    intro c hc
    have h' : (if isDigitChar c0 then digitsGo (digitVal c0) false rest else none) =
        some n := h
    by_cases hd : isDigitChar c0
    · rw [if_pos hd] at h'
      rcases List.mem_cons.mp hc with rfl | hm
      · exact Or.inl hd
      · exact digitsGo_chars rest _ _ _ h' c hm
    · rw [if_neg hd] at h'
      exact absurd h' (by simp)

/-- Characters consumed by `pyIntCore` are digits, underscores or signs. -/
theorem pyIntCore_chars (l : List Char) (v : Int) (h : pyIntCore l = some v) :
    ∀ c ∈ l, isDigitChar c = true ∨ c.toNat = 95 ∨ c = '+' ∨ c = '-' := by
  cases l with
  | nil => simp [pyIntCore] at h
  | cons c0 rest =>
    intro c hc
    have h' : (if c0 = '+' then (pyNat rest).map Int.ofNat
        else if c0 = '-' then (pyNat rest).map (fun n => -(Int.ofNat n))
        else (pyNat (c0 :: rest)).map Int.ofNat) = some v := h
    by_cases hp : c0 = '+'
    · rw [if_pos hp] at h'
      rcases Option.map_eq_some'.mp h' with ⟨n, hn, -⟩
      rcases List.mem_cons.mp hc with rfl | hm
      · exact Or.inr (Or.inr (Or.inl hp))
      · rcases pyNat_chars rest n hn c hm with hd | hu
        · exact Or.inl hd
        · exact Or.inr (Or.inl hu)
    · rw [if_neg hp] at h'
      by_cases hm2 : c0 = '-'
      · rw [if_pos hm2] at h'
        rcases Option.map_eq_some'.mp h' with ⟨n, hn, -⟩
        rcases List.mem_cons.mp hc with rfl | hm
        · exact Or.inr (Or.inr (Or.inr hm2))
        · rcases pyNat_chars rest n hn c hm with hd | hu
          · exact Or.inl hd
          · exact Or.inr (Or.inl hu)
      · rw [if_neg hm2] at h'
        rcases Option.map_eq_some'.mp h' with ⟨n, hn, -⟩
        rcases pyNat_chars (c0 :: rest) n hn c hc with hd | hu
        · exact Or.inl hd
        · exact Or.inr (Or.inl hu)

/-- Every character of a list is either whitespace or survives the strip. -/
theorem mem_stripWs_or_ws (l : List Char) (c : Char) (hc : c ∈ l) :
    c ∈ stripWs l ∨ isSpaceChar c = true := by
  have h1 : l.takeWhile isSpaceChar ++ l.dropWhile isSpaceChar = l :=
    List.takeWhile_append_dropWhile _ _
  rw [← h1] at hc
  rcases List.mem_append.mp hc with h | h
  · exact Or.inr (List.mem_takeWhile_imp h)
  · have hcrev : c ∈ (l.dropWhile isSpaceChar).reverse := List.mem_reverse.mpr h
    have h2 : (l.dropWhile isSpaceChar).reverse.takeWhile isSpaceChar ++
        (l.dropWhile isSpaceChar).reverse.dropWhile isSpaceChar =
        (l.dropWhile isSpaceChar).reverse :=
      List.takeWhile_append_dropWhile _ _
    rw [← h2] at hcrev
    rcases List.mem_append.mp hcrev with h3 | h3
    · exact Or.inr (List.mem_takeWhile_imp h3)
    · left
      show c ∈ ((l.dropWhile isSpaceChar).reverse.dropWhile isSpaceChar).reverse
      exact List.mem_reverse.mpr h3

/-- Every character of a string accepted by `pyInt` is whitespace, a
digit, an underscore or a sign. -/
theorem pyInt_chars (s : String) (v : Int) (h : pyInt s = some v) :
    ∀ c ∈ s.toList,
      isSpaceChar c = true ∨ isDigitChar c = true ∨ c.toNat = 95 ∨ c = '+' ∨ c = '-' := by
  intro c hc
  rcases mem_stripWs_or_ws s.toList c hc with hm | hws
  · rcases pyIntCore_chars (stripWs s.toList) v h c hm with h1 | h2
    · exact Or.inr (Or.inl h1)
    · exact Or.inr (Or.inr h2)
  · exact Or.inl hws

/-- A string accepted by `pyInt` is fixed by lower-casing. -/
theorem pyInt_toLowerStr (s : String) (v : Int) (h : pyInt s = some v) :
    toLowerStr s = s := by
  have hmap : s.toList.map toLowerChar = s.toList := by
    apply map_eq_self_of_forall
    intro c hc
    apply toLowerChar_eq_self
    rcases pyInt_chars s v h c hc with hws | hd | hu | rfl | rfl
    · unfold isSpaceChar at hws
      simp only [Bool.or_eq_true, decide_eq_true_eq] at hws
      omega
    · unfold isDigitChar at hd
      simp only [Bool.and_eq_true, decide_eq_true_eq] at hd
      omega
    · omega
    · decide
    · decide
  show String.mk (s.toList.map toLowerChar) = s
  rw [hmap]
  rfl

/-! ## C7: the duration grammar -/

/-- C7. An integer magnitude followed by a unit in `s`/`m`/`h`/`d` parses
to the magnitude times 1, 60, 3600 or 86400 respectively, and
`parse_duration_to_seconds` fails exactly when the string is empty, lacks a
supported unit suffix, or has a non-integer magnitude. -/
theorem C7_duration_grammar :
    (∀ (mag : String) (v : Int) (u : Char) (m : Int),
      pyInt mag = some v →
      (u, m) ∈ [('s', (1 : Int)), ('m', 60), ('h', 3600), ('d', 86400)] →
      parse_duration_to_seconds (mag.push u) = Except.ok (v * m)) ∧
    (∀ s : String,
      (∃ e, parse_duration_to_seconds s = Except.error e) ↔
        (s.toList = [] ∨
         (∀ u, (toLowerStr s).toList.getLast? = some u → unitMultiplier u = none) ∨
         pyInt (String.mk (toLowerStr s).toList.dropLast) = none)) := by
  constructor
  · intro mag v u m hmag hmem
    simp only [List.mem_cons, List.not_mem_nil, or_false, Prod.mk.injEq] at hmem
    have hmagmap : mag.toList.map toLowerChar = mag.toList :=
      congrArg String.toList (pyInt_toLowerStr mag v hmag)
    have hulower : toLowerChar u = u := by
      rcases hmem with ⟨rfl, rfl⟩ | ⟨rfl, rfl⟩ | ⟨rfl, rfl⟩ | ⟨rfl, rfl⟩ <;> decide
    have hmu : unitMultiplier u = some m := by
      rcases hmem with ⟨rfl, rfl⟩ | ⟨rfl, rfl⟩ | ⟨rfl, rfl⟩ | ⟨rfl, rfl⟩ <;> decide
    have hlower : (toLowerStr (mag.push u)).toList = mag.toList ++ [u] := by
      show ((mag.push u).toList.map toLowerChar) = mag.toList ++ [u]
      have hpush : (mag.push u).toList = mag.toList ++ [u] := String.data_push mag u
      rw [hpush, List.map_append, hmagmap]
      rw [List.map_singleton, hulower]
    have hsm : String.mk mag.toList = mag := rfl
    simp only [parse_duration_to_seconds, hlower, List.getLast?_concat,
      List.dropLast_concat, hmu, hsm, hmag]
  · intro s
    rcases hlast : (toLowerStr s).toList.getLast? with _ | u
    · have hval : parse_duration_to_seconds s = Except.error "Invalid duration format" := by
        simp only [parse_duration_to_seconds, hlast]
      rw [hval]
      constructor
      · intro _
        left
        have hnil : (toLowerStr s).toList = [] := by
          cases hl : (toLowerStr s).toList with
          | nil => rfl
          | cons a l =>
            rw [hl] at hlast
            simp at hlast
        have : s.toList.map toLowerChar = [] := hnil
        exact List.map_eq_nil_iff.mp this
      · intro _
        exact ⟨"Invalid duration format", rfl⟩
    · rcases hmul : unitMultiplier u with _ | m
      · have hval : parse_duration_to_seconds s = Except.error "Invalid duration format" := by
          simp only [parse_duration_to_seconds, hlast, hmul]
        rw [hval]
        constructor
        · intro _
          right
          left
          intro u' hu'
          obtain rfl := Option.some.inj hu'
          exact hmul
        · intro _
          exact ⟨"Invalid duration format", rfl⟩
      · rcases hint : pyInt (String.mk (toLowerStr s).toList.dropLast) with _ | v
        · have hval : parse_duration_to_seconds s = Except.error "Invalid duration value" := by
            simp only [parse_duration_to_seconds, hlast, hmul, hint]
          rw [hval]
          constructor
          · intro _
            exact Or.inr (Or.inr rfl)
          · intro _
            exact ⟨"Invalid duration value", rfl⟩
        · have hval : parse_duration_to_seconds s = Except.ok (v * m) := by
            simp only [parse_duration_to_seconds, hlast, hmul, hint]
          rw [hval]
          constructor
          · rintro ⟨e, he⟩
            exact absurd he (by simp)
          · intro hrhs
            exfalso
            rcases hrhs with hempty | hno | hnone
            · have h0 : (toLowerStr s).toList = [] := by
                show s.toList.map toLowerChar = []
                rw [hempty]
                rfl
              rw [h0] at hlast
              simp at hlast
            · have := hno u rfl
              rw [hmul] at this
              cases this
            · simp at hnone

/-- Witness for C7: `"30" ++ 'm'` parses to 1800 seconds, and the empty
string is rejected. -/
theorem C7_duration_grammar_witness :
    parse_duration_to_seconds (String.push "30" 'm') = Except.ok (30 * 60) ∧
    (∃ e, parse_duration_to_seconds "" = Except.error e) :=
  ⟨(C7_duration_grammar).1 "30" 30 'm' 60 (by decide) (by decide),
   ((C7_duration_grammar).2 "").mpr (Or.inl (by decide))⟩

/-! ## C10: matched lines versus stored events -/

/-- Appending one timestamp grows the total stored length by one. -/
theorem sumTimelineLengths_indexAppend (idx : List (String × List Nat)) (ip : String)
    (t : Nat) :
    sumTimelineLengths (indexAppend idx ip t) = sumTimelineLengths idx + 1 := by
  induction idx with
  | nil => rfl
  | cons e rest ih =>
    obtain ⟨k, v⟩ := e
    unfold indexAppend
    by_cases hk : k = ip
    · rw [if_pos hk]
      simp only [sumTimelineLengths, List.map_cons, List.sum_cons, List.length_append,
        List.length_cons, List.length_nil]
      omega
    · rw [if_neg hk]
      simp only [sumTimelineLengths, List.map_cons, List.sum_cons] at ih ⊢
      omega

/-- One loop iteration adds `lineMatched` to the matched counter and
`lineEvent` to the total stored length. -/
theorem processLine_step (rule proto : String) (leap : Bool) (st : ScanState)
    (line : String) :
    (processLine rule proto leap st line).matchedLines =
      st.matchedLines + lineMatched rule proto line ∧
    sumTimelineLengths (processLine rule proto leap st line).index =
      sumTimelineLengths st.index + lineEvent rule proto leap line := by
  unfold processLine lineMatched lineEvent
  rcases hs : searchLogPattern line with _ | md
  · simp
  · by_cases hf : (toLowerStr md.rule ≠ rule || toLowerStr md.proto ≠ proto : Bool) = true
    · simp only [if_pos hf]
      simp
    · simp only [if_neg hf]
      rcases hp : parseTimestamp leap md.timestamp with _ | tv
      · simp
      · simp [sumTimelineLengths_indexAppend]

/-- Over a fold of the reading loop, the matched counter and the total
stored length are the sums of the per-line contributions. -/
theorem runPhase1_counts (rule proto : String) (leap : Bool) :
    ∀ (lines : List String) (st : ScanState),
      (List.foldl (processLine rule proto leap) st lines).matchedLines =
        st.matchedLines + (lines.map (lineMatched rule proto)).sum ∧
      sumTimelineLengths (List.foldl (processLine rule proto leap) st lines).index =
        sumTimelineLengths st.index + (lines.map (lineEvent rule proto leap)).sum := by
  intro lines
  induction lines with
  | nil =>
    intro st
    simp
  | cons line rest ih =>
    intro st
    simp only [List.foldl_cons, List.map_cons, List.sum_cons]
    obtain ⟨h1, h2⟩ := ih (processLine rule proto leap st line)
    obtain ⟨g1, g2⟩ := processLine_step rule proto leap st line
    constructor
    · rw [h1, g1]
      omega
    · rw [h2, g2]
      omega

/-- Pointwise, a line contributes at most as much to the timelines as to
the matched counter, with slack exactly on matched lines whose timestamp
fails to parse. -/
theorem lineEvent_le_lineMatched (rule proto : String) (leap : Bool) (line : String) :
    lineEvent rule proto leap line ≤ lineMatched rule proto line ∧
    (matchedNoParse rule proto leap line = true →
      lineEvent rule proto leap line = 0 ∧ lineMatched rule proto line = 1) := by
  unfold lineEvent lineMatched matchedNoParse
  rcases hs : searchLogPattern line with _ | md
  · simp
  · by_cases hf : (toLowerStr md.rule ≠ rule || toLowerStr md.proto ≠ proto : Bool) = true
    · simp only [if_pos hf]
      simp
    · simp only [if_neg hf]
      rcases hp : parseTimestamp leap md.timestamp with _ | tv
      · simp
      · simp

/-- C10. The total number of stored timestamps never exceeds the matched
counter, and is strictly below it whenever some line matches the pattern
and filter but its timestamp fails to parse — the counter is incremented
before the timestamp parse is attempted. -/
theorem C10_matched_count_bound (rule proto : String) (leap : Bool)
    (lines : List String) :
    sumTimelineLengths (runPhase1 rule proto leap lines).index ≤
      (runPhase1 rule proto leap lines).matchedLines ∧
    ((∃ line ∈ lines, matchedNoParse rule proto leap line = true) →
      sumTimelineLengths (runPhase1 rule proto leap lines).index <
        (runPhase1 rule proto leap lines).matchedLines) := by
  obtain ⟨h1, h2⟩ := runPhase1_counts rule proto leap lines ⟨0, 0, []⟩
  have hrun1 : (runPhase1 rule proto leap lines).matchedLines =
      (lines.map (lineMatched rule proto)).sum := by
    unfold runPhase1
    rw [h1]
    simp
  have hrun2 : sumTimelineLengths (runPhase1 rule proto leap lines).index =
      (lines.map (lineEvent rule proto leap)).sum := by
    unfold runPhase1
    rw [h2]
    simp [sumTimelineLengths]
  constructor
  · rw [hrun1, hrun2]
    exact List.sum_le_sum (fun line _ => (lineEvent_le_lineMatched rule proto leap line).1)
  · rintro ⟨x, hx, hbad⟩
    rw [hrun1, hrun2]
    obtain ⟨s1, s2, rfl⟩ := List.append_of_mem hx
    rw [List.map_append, List.map_append, List.sum_append, List.sum_append,
      List.map_cons, List.map_cons, List.sum_cons, List.sum_cons]
    obtain ⟨hz, ho⟩ := (lineEvent_le_lineMatched rule proto leap x).2 hbad
    have hs1 : (s1.map (lineEvent rule proto leap)).sum ≤
        (s1.map (lineMatched rule proto)).sum :=
      List.sum_le_sum (fun line _ => (lineEvent_le_lineMatched rule proto leap line).1)
    have hs2 : (s2.map (lineEvent rule proto leap)).sum ≤
        (s2.map (lineMatched rule proto)).sum :=
      List.sum_le_sum (fun line _ => (lineEvent_le_lineMatched rule proto leap line).1)
    omega

/-- Witness for C10: with one good line and one month-less line the index
holds 1 timestamp while 2 lines matched. -/
theorem C10_matched_count_bound_witness :
    sumTimelineLengths (runPhase1 "blocked" "tcp" false [c10GoodLine, c10BadLine]).index <
      (runPhase1 "blocked" "tcp" false [c10GoodLine, c10BadLine]).matchedLines :=
  (C10_matched_count_bound "blocked" "tcp" false [c10GoodLine, c10BadLine]).2
    ⟨c10BadLine, by decide, by decide⟩

/-! ## C3: the extractor does not validate the SRC address -/

/-- Counterexample to C3: the line `c3Line` matches the extractor (its
`SRC=` field only has to fit the character class `[\d\.:a-fA-F]`), yet its
address `1.2.3.4.5` parses neither as IPv4 nor as IPv6, and feeding three
copies through both phases reaches the dispatcher's defensive
`InvalidAddress` warning. -/
theorem C3_counterexample :
    extractEvent "blocked" "tcp" false c3Line = some ("1.2.3.4.5", 43200) ∧
    classifyIp "1.2.3.4.5" = none ∧
    ScanEvent.warning "1.2.3.4.5" ∈
      runPhase2 "blk" 3 60 3600 false
        (runPhase1 "blocked" "tcp" false [c3Line, c3Line, c3Line]).index := by
  refine ⟨by decide, by decide, by decide⟩

/-- C3 (amended). The Event Extractor does not guarantee that the `SRC`
field parses as an address (for example `SRC=1.2.3.4.5` yields an event),
so the dispatcher's `InvalidAddress` branch is reachable; on such an
address the dispatcher emits only warnings — no violation report and no
sink invocation. -/
theorem C3_amended_invalid_address_reachable :
    (extractEvent "blocked" "tcp" false c3Line = some ("1.2.3.4.5", 43200) ∧
      classifyIp "1.2.3.4.5" = none) ∧
    (∀ (base ip : String) (K W : Nat) (ttl : Int) (dry : Bool) (t : List Nat),
      classifyIp ip = none →
      ∀ e ∈ scanAddress base ip K W ttl dry t, e = ScanEvent.warning ip) := by
  constructor
  · exact ⟨by decide, by decide⟩
  · intro base ip K W ttl dry t hc e he
    unfold scanAddress at he
    by_cases hlen : t.length < K
    · rw [if_pos hlen] at he
      simp at he
    · rw [if_neg hlen] at he
      exact scanLoop_warning_only base ip K W ttl dry (sortTimeline t) hc _ e he

/-- Witness for the amended C3 on the concrete invalid address. -/
theorem C3_amended_invalid_address_reachable_witness :
    classifyIp "1.2.3.4.5" = none ∧
    ScanEvent.warning "1.2.3.4.5" ∈
      scanAddress "blk" "1.2.3.4.5" 3 60 3600 false [43200, 43200, 43200] ∧
    (scanAddress "blk" "1.2.3.4.5" 3 60 3600 false [43200, 43200, 43200]).getD 0
      (ScanEvent.warning "") = ScanEvent.warning "1.2.3.4.5" :=
  ⟨by decide, by decide,
   C3_amended_invalid_address_reachable.2 "blk" "1.2.3.4.5" 3 60 3600 false
     [43200, 43200, 43200] (by decide) _ (by decide)⟩

end Pyrewall
